import Mathlib

/-!
Shallow embedding of the `ch.AutoComplete` widget
(`src/shared/js/ch.AutoComplete.js`) and proofs about its observable
behaviour.

Two models are used:
* an untimed state machine (`ACState` and the operations `suggest`,
  `hover`, `press`, `elFocus`, `elBlur`, `disable`, `widgetHide`,
  `typeText`) covering rendering, selection bookkeeping, committing and
  focus handling;
* a timed debounce model (`DebounceState`, `advanceTo`, `keystroke`)
  covering the keystroke timer of the `onkeyinput` handler.

DOM items rendered into the suggestion list are modelled as the list of
their markup strings; the `aria-posinset` attribute of the item at index
`i` is `i + 1` by construction, so a pointer event resolving to an item
is modelled by the posinset value it resolves to.  The module itself
never creates "extra items" (elements with class `ch-autoComplete-item`
outside the freshly cleared list), so the `$extraItems` collection of
`suggest` is empty in every state reachable through this module and the
embedding renders with `totalItems = suggestions.length` accordingly.
-/

namespace AC

/-- Events emitted by the widget through its event emitter. -/
inductive ACEvent where
  | evReady : ACEvent
  | evShow : ACEvent
  | evHide : ACEvent
  | evSelect : ACEvent
  | evTyping : String → ACEvent
deriving DecidableEq

/-- Configuration options, from `AutoComplete.prototype._defaults`
(lines 70-78 of the source). -/
structure ACOptions where
  loadingClass : String
  highlightedClass : String
  side : String
  align : String
  keystrokesTime : Nat
  hiddenby : String
  html : Bool
deriving DecidableEq

/-- The default configuration object of the widget. -/
def acDefaults : ACOptions :=
  { loadingClass := "ch-autoComplete-loading"
    highlightedClass := "ch-autoComplete-highlighted"
    side := "bottom"
    align := "left"
    keystrokesTime := 1000
    hiddenby := "none"
    html := false }

/-- The regex-special characters escaped by `suggest`:
the character class of `/([.*+?^=!:${}()|[\]\/\\])/g` (line 291). -/
def isRegexSpecial (c : Char) : Bool :=
  c == '.' || c == '*' || c == '+' || c == '?' || c == '^' || c == '=' ||
  c == '!' || c == ':' || c == '$' || c == '\x7b' || c == '\x7d' ||
  c == '(' || c == ')' || c == '|' || c == '[' || c == ']' ||
  c == '/' || c == '\\'

/-- `value.replace(/([.*+?^=!:${}()|[\]\/\\])/g, "\\$1")`: prepend a
backslash to every regex-special character. -/
def jsEscapeRegex : List Char → List Char
  | [] => []
  | c :: cs =>
    if isRegexSpecial c then '\\' :: c :: jsEscapeRegex cs
    else c :: jsEscapeRegex cs

/-- The literal character sequence matched by a regex pattern that
consists only of literal characters and backslash escapes (which is the
shape `jsEscapeRegex` produces): a backslash-escaped character matches
the character itself. -/
def regexLiteral : List Char → List Char
  | [] => []
  | [c] => [c]
  | c :: d :: cs =>
    if c = '\\' then d :: regexLiteral cs
    else c :: regexLiteral (d :: cs)

/-- Case-insensitive prefix test, modelling the `i` flag of the
`RegExp` built on line 292 (ASCII simple case folding). -/
def ciStartsWith : List Char → List Char → Bool
  | [], _ => true
  | _ :: _, [] => false
  | a :: as, b :: bs => (a.toLower == b.toLower) && ciStartsWith as bs

/-- `term.replace(matchedRegExp, '<strong>$1</strong>')` with the global
case-insensitive regex of a literal needle: leftmost, non-overlapping
case-insensitive occurrences of `q` are wrapped in `<strong>` tags, the
wrapped text (`$1`) keeping the original case of the term.  Structural
fuel (initialised to the term's length, which suffices since every match
consumes at least one character) keeps the definition computable by the
kernel.  An empty needle never reaches this function: `suggest` returns
early on an empty query. -/
def ciReplaceFuel (q : List Char) : Nat → List Char → List Char
  | _, [] => []
  | 0, l => l
  | fuel + 1, c :: rest =>
    if 0 < q.length ∧ ciStartsWith q (c :: rest) = true then
      "<strong>".toList ++ (c :: rest).take q.length ++ "</strong>".toList ++
        ciReplaceFuel q fuel ((c :: rest).drop q.length)
    else
      c :: ciReplaceFuel q fuel rest

/-- Global case-insensitive highlight replacement over a term. -/
def ciReplaceAll (q t : List Char) : List Char :=
  ciReplaceFuel q t.length t

/-- The literal needle matched by `new RegExp('(' + query + ')', 'ig')`
where `query` is the escaped input value (lines 291-292). -/
def matchNeedle (value : String) : List Char :=
  regexLiteral (jsEscapeRegex value.toList)

/-- Highlighted markup of one term for the current input value. -/
def hlTerm (value term : String) : String :=
  String.mk (ciReplaceAll (matchNeedle value) term.toList)

/-- The item markup built on line 319 of the source. -/
def itemHtml (setsize posinset : Nat) (body : String) : String :=
  "<li aria-setsize=\"" ++ toString setsize ++ "\" aria-posinset=\"" ++
    toString posinset ++ "\" class=\"ch-autoComplete-item\">" ++ body ++
    "<i class=\"ch-icon-arrow-up\" data-js=\"ch-autoComplete-complete-query\"></i></li>"

/-- The markup list built by the `forEach` of `suggest` (lines 315-320):
item `i` carries `aria-posinset = i + 1`, `aria-setsize` is the number
of suggestions (no extra items exist, see module comment), and the body
is the raw term when the `html` option is on, the highlighted term
otherwise. -/
def suggestItems (html : Bool) (value : String) (list : List String) : List String :=
  (List.range list.length).map fun i =>
    itemHtml list.length (i + 1)
      (if html then list.getD i "" else hlTerm value (list.getD i ""))

/-- Widget state.  `dom` is the markup of the items currently rendered
into the suggestion list; `events` the trace of emitted events. -/
structure ACState where
  html : Bool
  value : String
  focused : Bool
  shown : Bool
  enabled : Bool
  selected : Option Nat
  suggestions : List String
  originalQuery : String
  currentQuery : String
  loading : Bool
  dom : List String
  events : List ACEvent
deriving DecidableEq

/-- State after `_init` (lines 87-197): no selection, no suggestions,
`_originalQuery = _currentQuery = el.value`, popover hidden. -/
def initState (html : Bool) (value : String) : ACState :=
  { html := html
    value := value
    focused := false
    shown := false
    enabled := true
    selected := none
    suggestions := []
    originalQuery := value
    currentQuery := value
    loading := false
    dom := []
    events := [] }

/-- `AutoComplete.prototype.hide` (lines 340-344): emit `hide`, hide the
popover. -/
def widgetHide (s : ACState) : ACState :=
  { s with events := s.events ++ [ACEvent.evHide], shown := false }

/-- `AutoComplete.prototype.isShown` (lines 352-354). -/
def isShown (s : ACState) : Bool :=
  s.shown

/-- `_el.blur()` together with the `blur` handler of lines 185-190: the
element loses focus; if the widget is enabled the handler hides the
widget (and unbinds the keystroke listener). The input's value is not
touched. -/
def elBlur (s : ACState) : ACState :=
  let s1 := { s with focused := false }
  if s1.enabled then widgetHide s1 else s1

/-- The `focus` handler of lines 170-184: the element gains focus; if
the widget is enabled, `_originalQuery` captures the current value (and
the keystroke listener is bound). -/
def elFocus (s : ACState) : ACState :=
  let s1 := { s with focused := true }
  if s1.enabled then { s1 with originalQuery := s1.value } else s1

/-- A keystroke changing the input element's value (the timing of the
`typing` emission is covered by the debounce model below). -/
def typeText (v : String) (s : ACState) : ACState :=
  { s with value := v }

/-- `emit('typing', q)` and its handler (lines 155-160): if enabled,
`_currentQuery` is updated and the loading class added. -/
def emitTyping (q : String) (s : ACState) : ACState :=
  let s1 := { s with events := s.events ++ [ACEvent.evTyping q] }
  if s1.enabled then { s1 with currentQuery := q, loading := true } else s1

/-- `this._suggestions[this._selected]` with JavaScript's coercion of an
out-of-range (or `null`) lookup to the string form of `undefined`. -/
def suggestionAt (s : ACState) (sel : Option Nat) : String :=
  match sel with
  | some n =>
    match s.suggestions.get? n with
    | some t => t
    | none => "undefined"
  | none => "undefined"

/-- `AutoComplete.prototype._setQuery` (lines 206-222): nothing happens
without a selection; otherwise the input value receives the selected
suggestion unless the `html` option is on, `select` is emitted and the
element is blurred. -/
def setQuery (s : ACState) : ACState :=
  match s.selected with
  | none => s
  | some i =>
    let s1 := if s.html then s else { s with value := suggestionAt s (some i) }
    elBlur { s1 with events := s1.events ++ [ACEvent.evSelect] }

/-- What the pointer-down event target of the handler on lines 133-146
resolves to: the completion icon (`<i>`), a rendered item (an `LI` with
class `ch-autoComplete-item`, or a child of one), or anything else. -/
inductive PressTarget where
  | icon : PressTarget
  | item : PressTarget
  | outside : PressTarget
deriving DecidableEq

/-- The pointer-down handler (lines 133-146).  On the icon with the
`html` option off: the input value receives the selected suggestion and
`typing` is emitted (no `select`, no blur).  On the icon with `html` on
the first branch is skipped and the icon's parent `LI` triggers
`_setQuery`, as does a press on an item. -/
def press (t : PressTarget) (s : ACState) : ACState :=
  match t with
  | PressTarget.icon =>
    if s.html then setQuery s
    else
      let v := suggestionAt s s.selected
      emitTyping v { s with value := v }
  | PressTarget.item => setQuery s
  | PressTarget.outside => s

/-- `AutoComplete.prototype._select` (lines 252-266) driven by the
hover/press highlight handler (lines 129-131): if the event target
resolves to an item with `aria-posinset = p`, the selection becomes
`p - 1`; otherwise it becomes `null`. -/
def hover (target : Option Nat) (s : ACState) : ACState :=
  match target with
  | some p => { s with selected := some (p - 1) }
  | none => { s with selected := none }

/-- The `disable` handler (lines 148-153), run after the base widget has
switched `_enabled` off: if the widget is shown, `hide()` runs and the
element is blurred (the blur handler itself then does nothing, the
widget being disabled).  Modelled from the spec: the base-class
`disable`/event plumbing (`ch.Widget`) is not under `src/`; the spec's
lifecycle section says disabling while shown forces a hide and blur, and
the handler body here is taken from the source lines 148-153. -/
def disable (s : ACState) : ACState :=
  let s1 := { s with enabled := false }
  if s1.shown then elBlur (widgetHide s1) else s1

/-- `AutoComplete.prototype.suggest` (lines 287-332).  The loading class
is removed; with an empty list or empty (escaped) query the popover is
hidden and nothing else happens; otherwise the popover is shown (with a
`show` event) when it was hidden and the element is the active element,
the new list replaces the stored suggestions wholesale, the items are
rendered and the selection is reset to `null`. -/
def suggest (list : List String) (s : ACState) : ACState :=
  let s0 := { s with loading := false }
  let query := jsEscapeRegex s0.value.toList
  if list.length = 0 ∨ query.length = 0 then
    { s0 with shown := false }
  else
    let s1 :=
      if s0.shown = false ∧ s0.focused = true then
        { s0 with shown := true, events := s0.events ++ [ACEvent.evShow] }
      else s0
    { s1 with
      suggestions := list
      selected := none
      dom := suggestItems s1.html s1.value list }

/-- States reachable through the widget's own operations, starting from
`_init`.  A hover may only resolve to a posinset that an item currently
in the rendered list carries, i.e. a value in `1 .. dom.length`; typing
requires the input to be focused. -/
inductive Reachable : ACState → Prop where
  | start (html : Bool) (v : String) : Reachable (initState html v)
  | stepSuggest {s : ACState} (l : List String) :
      Reachable s → Reachable (suggest l s)
  | stepHoverOut {s : ACState} :
      Reachable s → Reachable (hover none s)
  | stepHoverItem {s : ACState} (p : Nat) :
      Reachable s → 1 ≤ p → p ≤ s.dom.length → Reachable (hover (some p) s)
  | stepPress {s : ACState} (t : PressTarget) :
      Reachable s → Reachable (press t s)
  | stepFocus {s : ACState} :
      Reachable s → Reachable (elFocus s)
  | stepBlur {s : ACState} :
      Reachable s → Reachable (elBlur s)
  | stepType {s : ACState} (v : String) :
      Reachable s → s.focused = true → Reachable (typeText v s)
  | stepDisable {s : ACState} :
      Reachable s → Reachable (disable s)
  | stepHide {s : ACState} :
      Reachable s → Reachable (widgetHide s)

/-- The selection invariant together with the structural fact carrying
it: the rendered list has one item per suggestion, and a non-null
selection is a valid index into the suggestions. -/
def StateInv (s : ACState) : Prop :=
  s.dom.length = s.suggestions.length ∧
    ∀ i : Nat, s.selected = some i → i < s.suggestions.length

/-- Timed debounce model: the input's value, the single pending timer
(its absolute expiry instant) and the payloads of the `typing` events
emitted so far. -/
structure DebounceState where
  value : String
  timer : Option Nat
  typed : List String
deriving DecidableEq

/-- The delay passed to `window.setTimeout` by the `onkeyinput` handler:
line 179 hard-codes `400`, whatever the configuration says. -/
def debounceDelay (_o : ACOptions) : Nat :=
  400

/-- Let time advance to instant `t`: a pending timer whose expiry has
been reached fires, emitting one `typing` event with the value the input
holds at that moment. -/
def advanceTo (t : Nat) (s : DebounceState) : DebounceState :=
  match s.timer with
  | some e =>
    if e ≤ t then { value := s.value, timer := none, typed := s.typed ++ [s.value] }
    else s
  | none => s

/-- The `onkeyinput` handler (lines 174-181) at instant `t`: any timer
already due has fired, the value becomes `v`, the pending timer is
cleared (`clearTimeout`) and replaced by a fresh one due
`debounceDelay` later. -/
def keystroke (o : ACOptions) (t : Nat) (v : String) (s : DebounceState) : DebounceState :=
  let s1 := advanceTo t s
  { s1 with value := v, timer := some (t + debounceDelay o) }

/-- A burst of keystrokes, each given as (instant, resulting value). -/
def runKeystrokes (o : ACOptions) (ks : List (Nat × String)) (s : DebounceState) : DebounceState :=
  ks.foldl (fun st tv => keystroke o tv.1 tv.2 st) s

/-- Concrete state used for the counterexample to the icon-commit part
of the spec: the input holds "ca", suggestions are rendered and shown,
and the first item is highlighted. -/
def c1State : ACState :=
  hover (some 1) (suggest ["cat", "car"] (elFocus (initState false "ca")))

/-- Concrete state with the second suggestion highlighted, used to
witness the amended commit behaviour. -/
def c1Commit : ACState :=
  { initState false "ca" with
    focused := true
    shown := true
    suggestions := ["cat", "car"]
    selected := some 1 }

/-- Concrete run for the blur claim: focus the input while it holds
"a", type so that it holds "ab", then blur without committing. -/
def c6Run : ACState :=
  elBlur (typeText "ab" (elFocus (initState false "a")))

theorem jsEscapeRegex_ne_nil (c : Char) (cs : List Char) :
    jsEscapeRegex (c :: cs) ≠ [] := by
  cases h : isRegexSpecial c <;> simp [jsEscapeRegex, h]

theorem toList_ne_nil_of_ne_empty (v : String) (h : v ≠ "") : v.toList ≠ [] := by
  cases v with
  | mk data =>
    intro hd
    apply h
    simp [String.toList] at hd
    subst hd
    rfl

theorem regexLiteral_cons_of_ne (c : Char) (l : List Char) (h : ¬ c = '\\') :
    regexLiteral (c :: l) = c :: regexLiteral l := by
  cases l with
  | nil => simp [regexLiteral]
  | cons d cs => simp [regexLiteral, h]

theorem regexLiteral_jsEscapeRegex (l : List Char) :
    regexLiteral (jsEscapeRegex l) = l := by
  induction l with
  | nil => simp [jsEscapeRegex, regexLiteral]
  | cons c cs ih =>
    cases h : isRegexSpecial c with
    | true => simp [jsEscapeRegex, h, regexLiteral, ih]
    | false =>
      have hc : ¬ c = '\\' := by
        intro he
        subst he
        simp [isRegexSpecial] at h
      simp [jsEscapeRegex, h, regexLiteral_cons_of_ne c _ hc, ih]

theorem matchNeedle_eq_toList (v : String) : matchNeedle v = v.toList :=
  regexLiteral_jsEscapeRegex v.toList

theorem length_suggestItems (b : Bool) (v : String) (l : List String) :
    (suggestItems b v l).length = l.length := by
  simp [suggestItems]

theorem suggestItems_getD (b : Bool) (v : String) (l : List String) (i : Nat)
    (hi : i < l.length) :
    (suggestItems b v l).getD i ""
      = itemHtml l.length (i + 1)
          (if b then l.getD i "" else hlTerm v (l.getD i "")) := by
  simp [suggestItems, List.getD, List.getElem?_map, List.getElem?_range, hi]

theorem inv_initState (b : Bool) (v : String) : StateInv (initState b v) := by
  constructor
  · rfl
  · intro i hi
    simp [initState] at hi

theorem inv_suggest (l : List String) (s : ACState) (h : StateInv s) :
    StateInv (suggest l s) := by
  unfold suggest
  by_cases hc : l.length = 0 ∨ (jsEscapeRegex s.value.toList).length = 0
  · simp only [hc, if_true]
    exact ⟨h.1, h.2⟩
  · by_cases hf : s.shown = false ∧ s.focused = true <;>
      simp only [hc, hf, if_true, if_false, and_self] <;>
      exact ⟨by simp [length_suggestItems], by intro i hi; simp at hi⟩

theorem elBlur_frame (s : ACState) :
    (elBlur s).selected = s.selected ∧ (elBlur s).suggestions = s.suggestions ∧
      (elBlur s).dom = s.dom ∧ (elBlur s).value = s.value := by
  by_cases h : s.enabled <;> simp [elBlur, widgetHide, h]

theorem setQuery_frame (s : ACState) :
    (setQuery s).selected = s.selected ∧ (setQuery s).suggestions = s.suggestions ∧
      (setQuery s).dom = s.dom := by
  unfold setQuery
  cases hs : s.selected with
  | none => simp [hs]
  | some i =>
    by_cases hh : s.html <;>
      by_cases he : s.enabled <;>
      simp [hh, he, elBlur, widgetHide, hs]

theorem emitTyping_frame (q : String) (s : ACState) :
    (emitTyping q s).selected = s.selected ∧
      (emitTyping q s).suggestions = s.suggestions ∧
      (emitTyping q s).dom = s.dom := by
  by_cases h : s.enabled <;> simp [emitTyping, h]

theorem press_frame (t : PressTarget) (s : ACState) :
    (press t s).selected = s.selected ∧ (press t s).suggestions = s.suggestions ∧
      (press t s).dom = s.dom := by
  cases t with
  | icon =>
    by_cases hh : s.html
    · simpa [press, hh] using setQuery_frame s
    · simpa [press, hh] using emitTyping_frame (suggestionAt s s.selected)
        { s with value := suggestionAt s s.selected }
  | item => simpa [press] using setQuery_frame s
  | outside => exact ⟨rfl, rfl, rfl⟩

theorem inv_of_frame {s s' : ACState}
    (hsel : s'.selected = s.selected) (hsug : s'.suggestions = s.suggestions)
    (hdom : s'.dom = s.dom) (h : StateInv s) : StateInv s' := by
  refine ⟨by rw [hsel, hsug, hdom] at *; exact h.1, ?_⟩
  intro i hi
  rw [hsel] at hi
  rw [hsug]
  exact h.2 i hi

theorem inv_press (t : PressTarget) (s : ACState) (h : StateInv s) :
    StateInv (press t s) :=
  inv_of_frame (press_frame t s).1 (press_frame t s).2.1 (press_frame t s).2.2 h

theorem inv_hover (target : Option Nat) (s : ACState) (h : StateInv s)
    (hdom : ∀ p : Nat, target = some p → 1 ≤ p ∧ p ≤ s.dom.length) :
    StateInv (hover target s) := by
  cases target with
  | none => exact ⟨h.1, by intro i hi; simp [hover] at hi⟩
  | some p =>
    refine ⟨h.1, ?_⟩
    intro i hi
    simp only [hover] at hi ⊢
    obtain ⟨hi2⟩ := hi
    obtain ⟨h1, h2⟩ := hdom p rfl
    have h3 := h.1
    omega

theorem inv_elFocus (s : ACState) (h : StateInv s) : StateInv (elFocus s) := by
  by_cases he : s.enabled <;>
    exact inv_of_frame (by simp [elFocus, he]) (by simp [elFocus, he])
      (by simp [elFocus, he]) h

theorem inv_elBlur (s : ACState) (h : StateInv s) : StateInv (elBlur s) :=
  inv_of_frame (elBlur_frame s).1 (elBlur_frame s).2.1 (elBlur_frame s).2.2.1 h

theorem inv_typeText (v : String) (s : ACState) (h : StateInv s) :
    StateInv (typeText v s) :=
  inv_of_frame rfl rfl rfl h

theorem inv_widgetHide (s : ACState) (h : StateInv s) : StateInv (widgetHide s) :=
  inv_of_frame rfl rfl rfl h

theorem inv_disable (s : ACState) (h : StateInv s) : StateInv (disable s) := by
  unfold disable
  by_cases hs : s.shown = true
  · simp only [hs, if_true]
    exact inv_elBlur _ (inv_widgetHide _ (inv_of_frame rfl rfl rfl h))
  · simp only [hs, if_false]
    exact inv_of_frame rfl rfl rfl h

theorem reachable_inv (s : ACState) (h : Reachable s) : StateInv s := by
  induction h with
  | start b v => exact inv_initState b v
  | stepSuggest l _ ih => exact inv_suggest l _ ih
  | stepHoverOut _ ih => exact inv_hover none _ ih (by intro p hp; cases hp)
  | stepHoverItem p _ h1 h2 ih =>
    exact inv_hover (some p) _ ih (by intro q hq; cases hq; exact ⟨h1, h2⟩)
  | stepPress t _ ih => exact inv_press t _ ih
  | stepFocus _ ih => exact inv_elFocus _ ih
  | stepBlur _ ih => exact inv_elBlur _ ih
  | stepType v _ _ ih => exact inv_typeText v _ ih
  | stepDisable _ ih => exact inv_disable _ ih
  | stepHide _ ih => exact inv_widgetHide _ ih

theorem suggest_cond_false (l : List String) (s : ACState)
    (h1 : l ≠ []) (h2 : s.value ≠ "") :
    ¬ (l.length = 0 ∨ (jsEscapeRegex s.value.toList).length = 0) := by
  push_neg
  constructor
  · simpa using h1
  · have h3 := toList_ne_nil_of_ne_empty s.value h2
    cases hv : s.value.toList with
    | nil => exact absurd hv h3
    | cons c cs => simpa using jsEscapeRegex_ne_nil c cs

/-- Claim C3: a `suggest` call with an empty list or an empty
(regex-escaped) query hides the popover, renders nothing (the rendered
items are untouched) and leaves the stored suggestions alone. -/
theorem suggest_empty_hides (s : ACState) (l : List String)
    (h : l = [] ∨ jsEscapeRegex s.value.toList = []) :
    (suggest l s).shown = false ∧ (suggest l s).dom = s.dom ∧
      (suggest l s).suggestions = s.suggestions := by
  have hc : l.length = 0 ∨ (jsEscapeRegex s.value.toList).length = 0 := by
    cases h with
    | inl h => exact Or.inl (by rw [h]; rfl)
    | inr h => exact Or.inr (by rw [h]; rfl)
  unfold suggest
  simp only [hc, if_true]
  simp

/-- Witness for C3 at a concrete input: an empty list hides the shown
popover. -/
theorem suggest_empty_hides_witness :
    (suggest [] { initState false "ca" with shown := true }).shown = false ∧
      (suggest [] { initState false "ca" with shown := true }).dom = [] ∧
      (suggest [] { initState false "ca" with shown := true }).suggestions = [] :=
  suggest_empty_hides { initState false "ca" with shown := true } [] (Or.inl rfl)

/-- Claim C7: a `suggest` call with a non-empty list and non-empty query
replaces the stored suggestions wholesale with the new list and resets
the selected index to `null`. -/
theorem suggest_replaces_wholesale (s : ACState) (l : List String)
    (h1 : l ≠ []) (h2 : s.value ≠ "") :
    (suggest l s).suggestions = l ∧ (suggest l s).selected = none := by
  have hc := suggest_cond_false l s h1 h2
  unfold suggest
  by_cases hf : s.shown = false ∧ s.focused = true <;>
    simp only [hc, hf, if_true, if_false] <;>
    simp

/-- Witness for C7 at a concrete input. -/
theorem suggest_replaces_wholesale_witness :
    (suggest ["cat", "car"]
        { initState false "ca" with suggestions := ["old"], selected := some 0 }).suggestions
        = ["cat", "car"] ∧
      (suggest ["cat", "car"]
        { initState false "ca" with suggestions := ["old"], selected := some 0 }).selected
        = none :=
  suggest_replaces_wholesale _ _ (by decide) (by decide)

/-- Claim C8: disabling the widget while it is shown hides the popover
and removes focus from the input. -/
theorem disable_hides_and_blurs (s : ACState) (h : isShown s = true) :
    (disable s).shown = false ∧ (disable s).focused = false := by
  simp only [isShown] at h
  simp [disable, h, elBlur, widgetHide]

/-- Witness for C8 at a concrete input. -/
theorem disable_hides_and_blurs_witness :
    (disable { initState false "a" with shown := true, focused := true }).shown = false ∧
      (disable { initState false "a" with shown := true, focused := true }).focused = false :=
  disable_hides_and_blurs { initState false "a" with shown := true, focused := true } rfl

/-- Claim C10: with a non-empty list and non-empty query and the popover
hidden, `suggest` stores and renders the suggestions in any case, but
shows the popover (emitting `show`) exactly when the input is the
document's active element. -/
theorem suggest_show_only_when_focused (s : ACState) (l : List String)
    (h1 : l ≠ []) (h2 : s.value ≠ "") (h3 : s.shown = false) :
    (suggest l s).suggestions = l ∧
      (suggest l s).dom = suggestItems s.html s.value l ∧
      (suggest l s).shown = s.focused ∧
      (suggest l s).events
        = (if s.focused = true then s.events ++ [ACEvent.evShow] else s.events) := by
  have hc := suggest_cond_false l s h1 h2
  unfold suggest
  by_cases hcond : s.shown = false ∧ s.focused = true
  · simp only [hc, hcond, if_true, if_false]
    simp [hcond.2]
  · have hf : s.focused = false := by
      rcases Bool.eq_false_or_eq_true s.focused with h | h
      · exact absurd ⟨h3, h⟩ hcond
      · exact h
    simp only [hc, hcond, if_true, if_false]
    simp [hf, h3]

/-- Witness for C10 at a concrete input: an unfocused input stores and
renders but stays hidden. -/
theorem suggest_show_only_when_focused_witness :
    (suggest ["cat"] (initState false "ca")).suggestions = ["cat"] ∧
      (suggest ["cat"] (initState false "ca")).dom = suggestItems false "ca" ["cat"] ∧
      (suggest ["cat"] (initState false "ca")).shown = false ∧
      (suggest ["cat"] (initState false "ca")).events = [] :=
  suggest_show_only_when_focused (initState false "ca") ["cat"]
    (by decide) (by decide) rfl

/-- Claim C6 counterexample: focusing with value "a", typing "ab" and
blurring without commit leaves the input at "ab"; nothing restores the
captured original query "a". -/
theorem blur_does_not_restore :
    c6Run.originalQuery = "a" ∧ c6Run.value = "ab" ∧
      ¬ c6Run.value = c6Run.originalQuery := by
  decide

/-- Claim C6 (amended): focusing captures the pre-edit value into the
original query, but a blur without commit only hides the widget and
leaves the input's value (and the stored original query) unchanged; no
restore takes place in this module. -/
theorem blur_keeps_value (s : ACState) (h : s.enabled = true) :
    (elFocus s).originalQuery = s.value ∧
      (elBlur s).value = s.value ∧
      (elBlur s).originalQuery = s.originalQuery ∧
      (elBlur s).shown = false := by
  simp [elFocus, elBlur, widgetHide, h]

/-- Witness for the amended C6 at a concrete input. -/
theorem blur_keeps_value_witness :
    (elFocus (typeText "ab" (initState false "a"))).originalQuery = "ab" ∧
      (elBlur (typeText "ab" (initState false "a"))).value = "ab" ∧
      (elBlur (typeText "ab" (initState false "a"))).originalQuery = "a" ∧
      (elBlur (typeText "ab" (initState false "a"))).shown = false :=
  blur_keeps_value (typeText "ab" (initState false "a")) rfl

theorem runKeystrokes_no_fire (rest : List (Nat × String)) :
    ∀ (t : Nat) (v : String) (s : DebounceState),
      s.timer = some (t + 400) → s.value = v →
      List.Chain (fun a b => a.1 < b.1 ∧ b.1 < a.1 + 400) (t, v) rest →
      runKeystrokes acDefaults rest s =
        { value := (rest.getLastD (t, v)).2
          timer := some ((rest.getLastD (t, v)).1 + 400)
          typed := s.typed } := by
  induction rest with
  | nil =>
    intro t v s h1 h2 _
    cases s with
    | mk value timer typed =>
      simp only [runKeystrokes, List.foldl_nil, List.getLastD]
      simp_all
  | cons b r ih =>
    obtain ⟨tb, vb⟩ := b
    intro t v s h1 h2 hch
    rw [List.chain_cons] at hch
    obtain ⟨⟨hlt, hub⟩, hch2⟩ := hch
    have hnle : ¬ (t + 400 ≤ tb) := by omega
    have hadv : advanceTo tb s = s := by
      simp [advanceTo, h1, hnle]
    have hks : runKeystrokes acDefaults ((tb, vb) :: r) s
        = runKeystrokes acDefaults r (keystroke acDefaults tb vb s) := rfl
    have hkeq : keystroke acDefaults tb vb s
        = { value := vb, timer := some (tb + 400), typed := s.typed } := by
      simp [keystroke, hadv, debounceDelay]
    rw [hks, hkeq, List.getLastD_cons]
    exact ih tb vb _ rfl rfl hch2

/-- Claim C2: a burst of keystrokes whose gaps are all below the 400ms
debounce delay emits no `typing` event during the burst and exactly one
`typing` event once 400ms have passed after the last keystroke, carrying
the last keystroke's value. -/
theorem debounce_single_typing (t : Nat) (v : String) (rest : List (Nat × String))
    (hch : List.Chain (fun a b => a.1 < b.1 ∧ b.1 < a.1 + 400) (t, v) rest) :
    (advanceTo ((rest.getLastD (t, v)).1 + 400)
        (runKeystrokes acDefaults ((t, v) :: rest)
          { value := "", timer := none, typed := [] })).typed
      = [(rest.getLastD (t, v)).2] := by
  have h0 : runKeystrokes acDefaults ((t, v) :: rest) { value := "", timer := none, typed := [] }
      = runKeystrokes acDefaults rest { value := v, timer := some (t + 400), typed := [] } := by
    simp [runKeystrokes, keystroke, advanceTo, debounceDelay]
  rw [h0, runKeystrokes_no_fire rest t v _ rfl rfl hch]
  simp [advanceTo]

/-- Witness for C2 at a concrete burst: keystrokes at 0ms ("c") and
100ms ("ca") produce exactly one `typing` carrying "ca" at 500ms. -/
theorem debounce_single_typing_witness :
    (advanceTo 500 (runKeystrokes acDefaults [(0, "c"), (100, "ca")]
        { value := "", timer := none, typed := [] })).typed = ["ca"] :=
  debounce_single_typing 0 "c" [(100, "ca")]
    (List.Chain.cons ⟨by decide, by decide⟩ List.Chain.nil)

/-- Claim C9 counterexample: an instance configured with
`keystrokesTime := 5000` has already emitted its `typing` event 400ms
after the keystroke, and the hard-coded delay differs from the
configured one. -/
theorem keystrokesTime_not_honored :
    (advanceTo 400 (keystroke { acDefaults with keystrokesTime := 5000 } 0 "a"
        { value := "", timer := none, typed := [] })).typed = ["a"] ∧
      debounceDelay { acDefaults with keystrokesTime := 5000 } ≠ 5000 := by
  decide

/-- Claim C9 (amended): `keystrokesTime` exists as a configuration
default (1000), but the `onkeyinput` handler hard-codes a 400ms delay:
whatever the options, a keystroke always schedules the timer 400ms
ahead. -/
theorem debounce_delay_ignores_options (o : ACOptions) (t : Nat) (v : String)
    (s : DebounceState) :
    (keystroke o t v s).timer = some (t + 400) ∧ acDefaults.keystrokesTime = 1000 :=
  ⟨rfl, rfl⟩

/-- Claim C4: in every state reachable through the widget's operations,
a non-null selected index is a valid zero-based position into the
current suggestion list. -/
theorem selected_in_range (s : ACState) (hr : Reachable s) (i : Nat)
    (hi : s.selected = some i) : i < s.suggestions.length :=
  (reachable_inv s hr).2 i hi

/-- Witness for C4 at a concrete reachable state: after rendering two
suggestions and hovering the second item, the selected index 1 is in
range. -/
theorem selected_in_range_witness :
    1 < (hover (some 2) (suggest ["cat", "car"]
        (elFocus (initState false "ca")))).suggestions.length :=
  selected_in_range _
    (Reachable.stepHoverItem 2
      (Reachable.stepSuggest ["cat", "car"]
        (Reachable.stepFocus (Reachable.start false "ca")))
      (by decide) (by decide))
    1 (by decide)

/-- Claim C1 counterexample: committing the highlighted suggestion via
the completion icon copies the text but emits a `typing` event rather
than `select`, and leaves the input focused. -/
theorem icon_commit_emits_typing_not_select :
    (press PressTarget.icon c1State).value = "cat" ∧
      (press PressTarget.icon c1State).events
        = [ACEvent.evShow, ACEvent.evTyping "cat"] ∧
      (press PressTarget.icon c1State).focused = true := by
  decide

/-- Claim C1 (amended): with a highlighted suggestion and the raw-markup
option off, a press on a rendered item copies `suggestions[selected]`
into the input, emits exactly one `select` (followed by the `hide` of
the blur handler when enabled) and removes focus; a press on the
completion icon instead copies the text, emits one `typing` event (no
`select`) and keeps the focus state. -/
theorem commit_paths (s : ACState) (i : Nat) (hsel : s.selected = some i)
    (hi : i < s.suggestions.length) (hh : s.html = false) :
    (press PressTarget.item s).value = s.suggestions.getD i "" ∧
      (press PressTarget.item s).events
        = s.events ++ [ACEvent.evSelect]
            ++ (if s.enabled = true then [ACEvent.evHide] else []) ∧
      (press PressTarget.item s).focused = false ∧
      (press PressTarget.icon s).value = s.suggestions.getD i "" ∧
      (press PressTarget.icon s).events
        = s.events ++ [ACEvent.evTyping (s.suggestions.getD i "")] ∧
      (press PressTarget.icon s).focused = s.focused := by
  have hget : suggestionAt s (some i) = s.suggestions.getD i "" := by
    have hg : s.suggestions[i]? = some s.suggestions[i] := List.getElem?_eq_getElem hi
    simp [suggestionAt, List.get?_eq_getElem?, hg, List.getD_eq_getElem?_getD]
  by_cases he : s.enabled = true <;>
    simp [press, hh, setQuery, hsel, hget, emitTyping, elBlur, widgetHide, he]

/-- Witness for the amended C1 at a concrete state with the second
suggestion highlighted. -/
theorem commit_paths_witness :
    (press PressTarget.item c1Commit).value = "car" ∧
      (press PressTarget.item c1Commit).events = [ACEvent.evSelect, ACEvent.evHide] ∧
      (press PressTarget.item c1Commit).focused = false ∧
      (press PressTarget.icon c1Commit).value = "car" ∧
      (press PressTarget.icon c1Commit).events = [ACEvent.evTyping "car"] ∧
      (press PressTarget.icon c1Commit).focused = true :=
  commit_paths c1Commit 1 rfl (by decide) rfl

/-- Claim C5: rendering escapes the regex-special characters of the
query so that it matches literally (`matchNeedle` of the escaped query
is the query itself), matches case-insensitively preserving the term's
own casing, wraps every matched substring in `<strong>` markup (skipped
when the `html` option is on) and labels item `i` with the 1-based
position `i + 1`; in particular for suggestions ["cat", "car"] and
query "ca" both items are highlighted and labelled 1 and 2. -/
theorem render_highlights_and_labels :
    suggestItems false "ca" ["cat", "car"]
        = [itemHtml 2 1 "<strong>ca</strong>t", itemHtml 2 2 "<strong>ca</strong>r"] ∧
      suggestItems false "ca" ["CAt"] = [itemHtml 1 1 "<strong>CA</strong>t"] ∧
      suggestItems false "c.a" ["c.at", "cxat"]
        = [itemHtml 2 1 "<strong>c.a</strong>t", itemHtml 2 2 "cxat"] ∧
      (∀ v : String, matchNeedle v = v.toList) ∧
      (∀ (b : Bool) (v : String) (l : List String) (i : Nat), i < l.length →
        (suggestItems b v l).getD i ""
          = itemHtml l.length (i + 1)
              (if b then l.getD i "" else hlTerm v (l.getD i ""))) :=
  ⟨by rfl, by rfl, by rfl, matchNeedle_eq_toList, suggestItems_getD⟩

/-- Witness for C5 at a concrete input: with the raw-markup option on,
item 0 keeps its raw body and carries position label 1. -/
theorem render_highlights_and_labels_witness :
    (suggestItems true "q" ["ab"]).getD 0 "" = itemHtml 1 1 "ab" :=
  render_highlights_and_labels.2.2.2.2 true "q" ["ab"] 0 (by decide)

end AC
